import Mathlib

/-!
EDUBOARDBD: the result scraper's validation, captcha and configuration logic.

A shallow embedding of `main.go`.  Go strings are sequences of Unicode code
points (`List Char`, that is: valid UTF-8), Go `int` is the 64-bit signed
integer of a 64-bit target, modelled as `Int` with explicit wrap-around, and
the `error` results are optional messages.  The standard-library functions the
program calls (`strconv.Atoi`, `strconv.Itoa`, `strings.Split`,
`strings.TrimSpace`, `strings.ToLower`) are embedded from their Go sources; the
case table of package `unicode`, which `strings.ToLower` consults for runes
outside ASCII, is a parameter `caseTable` of the functions that lower-case.
The network fetch, the JSON decoding and the browser are outside the program:
their results are inputs of the embedded functions.
-/

namespace EduBoard

/-- A Go string, as its sequence of code points. -/
abbrev GoString := List Char

/-! ## ANSI color codes -/

def colorReset : GoString := "\x1b[0m".toList
def colorRed : GoString := "\x1b[31m".toList

/-! ## Package `strconv` -/

/-- The size of `int` in bits (`strconv.IntSize` on a 64-bit target). -/
def intSize : Nat := 64

/-- Conversion `int64(x)` / wrap-around of signed 64-bit arithmetic. -/
def wrapInt (x : Int) : Int := (x + 2 ^ 63) % 2 ^ 64 - 2 ^ 63

/-- Conversion `uint64(x)` of a signed value. -/
def toUint64 (x : Int) : Nat := (x % 2 ^ 64).toNat

/-- The two causes a `*strconv.NumError` can carry. -/
inductive NumError where
  | ErrSyntax
  | ErrRange
  deriving DecidableEq

/-- The character of one decimal digit `d < 10`. -/
def digitChar (d : Nat) : Char := Char.ofNat (48 + d)

/-- The digit-writing loop of `formatBits` in base 10: digits of `u` are pushed
in front of `acc`, least significant first; `k` bounds the number of digits
(the buffer of `formatBits` is never exhausted by a 64-bit value). -/
def formatLoop : Nat → Nat → GoString → GoString
  | 0, _, acc => acc
  | k + 1, u, acc =>
    if u < 10 then digitChar u :: acc
    else formatLoop k (u / 10) (digitChar (u % 10) :: acc)

/-- Decimal digits of an unsigned 64-bit value (`formatBits` with base 10). -/
def formatBits (u : Nat) : GoString := formatLoop 20 u []

/-- Go `strconv.Itoa`, that is `FormatInt(int64(i), 10)`: the magnitude is taken
in `uint64` arithmetic and a minus sign is put in front of a negative value. -/
def Itoa (i : Int) : GoString :=
  if i < 0 then '-' :: formatBits (toUint64 (-i)) else formatBits (toUint64 i)

/-- Is the character an ASCII decimal digit? -/
def isDigit (c : Char) : Bool := decide (48 ≤ c.toNat) && decide (c.toNat ≤ 57)

/-- The digit loop of the fast path of `Atoi`: `n = n*10 + int(ch - '0')`, a
syntax error at the first character that is not a digit.  (On this path the
string has fewer than 19 characters, so `n` cannot overflow.) -/
def atoiLoop : GoString → Nat → Option Nat
  | [], n => some n
  | ch :: rest, n => if isDigit ch then atoiLoop rest (n * 10 + (ch.toNat - 48)) else none

/-- The value `ParseUint` gives a character: `0..9` for digits, `10..35` for
ASCII letters, nothing for any other character. -/
def digitOf (c : Char) : Option Nat :=
  if isDigit c then some (c.toNat - 48)
  else if 97 ≤ c.toNat ∧ c.toNat ≤ 122 then some (c.toNat - 97 + 10)
  else if 65 ≤ c.toNat ∧ c.toNat ≤ 90 then some (c.toNat - 65 + 10)
  else none

/-- The largest `uint64`. -/
def maxUint64 : Nat := 2 ^ 64 - 1

/-- The loop of `ParseUint(s, 10, 0)`: `cutoff = maxUint64/10 + 1`,
`maxVal = 1<<64 - 1`; the sum `n*10 + d` is taken in `uint64`. -/
def parseUintLoop : GoString → Nat → Nat × Option NumError
  | [], n => (n, none)
  | c :: rest, n =>
    match digitOf c with
    | none => (0, some NumError.ErrSyntax)
    | some d =>
      if d ≥ 10 then (0, some NumError.ErrSyntax)
      else if n ≥ maxUint64 / 10 + 1 then (maxUint64, some NumError.ErrRange)
      else
        let n1 := (n * 10 + d) % 2 ^ 64
        if n1 < n * 10 ∨ n1 > maxUint64 then (maxUint64, some NumError.ErrRange)
        else parseUintLoop rest n1

/-- Go `strconv.ParseUint(s, 10, 0)`. -/
def ParseUint (s : GoString) : Nat × Option NumError :=
  if s = [] then (0, some NumError.ErrSyntax) else parseUintLoop s 0

/-- Go `strconv.ParseInt(s, 10, 0)`: an optional sign, then `ParseUint`, then the
range check against `cutoff = 1 << (intSize - 1)`. -/
def ParseInt (s : GoString) : Int × Option NumError :=
  match s with
  | [] => (0, some NumError.ErrSyntax)
  | c :: rest =>
    let neg := decide (c = '-')
    let body := if c = '+' ∨ c = '-' then rest else s
    let r := ParseUint body
    if r.2 = some NumError.ErrSyntax then (0, r.2)
    else
      let un := r.1
      let cutoff : Nat := 2 ^ (intSize - 1)
      if !neg ∧ un ≥ cutoff then ((cutoff : Int) - 1, some NumError.ErrRange)
      else if neg ∧ un > cutoff then (-(cutoff : Int), some NumError.ErrRange)
      else (if neg then -(un : Int) else (un : Int), none)

/-- Go `len(s)`: the number of bytes of the UTF-8 encoding. -/
def len (s : GoString) : Nat := (s.map Char.utf8Size).sum

/-- Go `strconv.Atoi`: a fast path for strings of 1 to 18 bytes, and
`ParseInt(s, 10, 0)` for the rest. -/
def Atoi (s : GoString) : Int × Option NumError :=
  match s with
  | [] => ParseInt s
  | c :: rest =>
    if len s < 19 then
      let body := if c = '-' ∨ c = '+' then rest else s
      if len body < 1 then (0, some NumError.ErrSyntax)
      else
        match atoiLoop body 0 with
        | none => (0, some NumError.ErrSyntax)
        | some n => (if c = '-' then -(n : Int) else (n : Int), none)
    else ParseInt s

/-! ## Package `strings` -/

/-- Go `unicode.IsSpace`: the Latin-1 spaces and the `White_Space` range table. -/
def IsSpace (r : Char) : Bool :=
  let n := r.toNat
  if n ≤ 255 then
    n = 9 || n = 10 || n = 11 || n = 12 || n = 13 || n = 32 || n = 133 || n = 160
  else
    n = 5760 || (decide (8192 ≤ n) && decide (n ≤ 8202)) || n = 8232 || n = 8233
      || n = 8239 || n = 8287 || n = 12288

/-- Go `strings.TrimSpace`: leading and trailing white space removed. -/
def TrimSpace (s : GoString) : GoString :=
  ((s.dropWhile IsSpace).reverse.dropWhile IsSpace).reverse

/-- Go `strings.Split(s, sep)` for a separator of one ASCII character: the
substrings between the separators, at least one. -/
def Split : GoString → Char → List GoString
  | [], _ => [[]]
  | c :: rest, sep =>
    if c = sep then [] :: Split rest sep
    else
      match Split rest sep with
      | [] => [[c]]
      | p :: ps => (c :: p) :: ps

/-! ## The captcha solver -/

/-- The function `calculateCaptcha` of `main.go`. -/
def calculateCaptcha (captcha : GoString) : GoString :=
  let parts := Split captcha '+'
  match parts with
  | [p0, p1] =>
    let r1 := Atoi (TrimSpace p0)
    if r1.2 ≠ none then []
    else
      let r2 := Atoi (TrimSpace p1)
      if r2.2 ≠ none then []
      else Itoa (wrapInt (r1.1 + r2.1))
  | _ => []

/-! ## Case mapping -/

/-- Is the character an ASCII upper-case letter? -/
def isUpperASCII (c : Char) : Bool := decide (65 ≤ c.toNat) && decide (c.toNat ≤ 90)

/-- The ASCII step `c += 'a' - 'A'` on upper-case letters. -/
def lowerASCII (c : Char) : Char := if isUpperASCII c then Char.ofNat (c.toNat + 32) else c

/-- Go `unicode.ToLower`: ASCII is mapped directly, every other rune through the
case table of package `unicode` (`unicode.To(unicode.LowerCase, r)`), which is
the parameter `caseTable`. -/
def unicodeToLower (caseTable : Char → Char) (r : Char) : Char :=
  if r.toNat ≤ 127 then lowerASCII r else caseTable r

/-- Go `strings.ToLower`: an ASCII-only string is returned as it is when it has
no upper-case letter and mapped bytewise otherwise; any other string is mapped
rune by rune with `unicode.ToLower`. -/
def ToLower (caseTable : Char → Char) (s : GoString) : GoString :=
  if s.all (fun c => decide (c.toNat < 128)) then
    if !(s.any isUpperASCII) then s else s.map lowerASCII
  else s.map (unicodeToLower caseTable)

/-! ## The input validator -/

/-- How a call of a function with result type `error` ends: it returns (`nil` is
`none`), or `log.Fatalf` prints a message and exits the process. -/
inductive Outcome where
  | ret (err : Option GoString)
  | fatal (msg : GoString)
  deriving DecidableEq

/-- Indexing a `map[string]bool`: the zero value `false` for an absent key. -/
def mapIndex (m : List (GoString × Bool)) (k : GoString) : Bool :=
  match m.lookup k with
  | some b => b
  | none => false

/-- The map literal of `validateExam`. -/
def validExams : List (GoString × Bool) :=
  [("ssc".toList, true), ("jsc".toList, true), ("ssc_voc".toList, true),
   ("hsc".toList, true), ("hsc_voc".toList, true), ("hsc_hbm".toList, true),
   ("hsc_dic".toList, true)]

/-- The map literal of `validateBoard`. -/
def validBoards : List (GoString × Bool) :=
  [("barisal".toList, true), ("chittagong".toList, true), ("comilla".toList, true),
   ("dhaka".toList, true), ("dinajpur".toList, true), ("jessore".toList, true),
   ("mymensingh".toList, true), ("rajshahi".toList, true), ("sylhet".toList, true),
   ("madrasah".toList, true), ("tec".toList, true), ("dibs".toList, true)]

def validateExam (caseTable : Char → Char) (exam : GoString) : Outcome :=
  if !(mapIndex validExams (ToLower caseTable exam)) then
    Outcome.ret (some (colorRed ++ "invalid exam value: ".toList ++ exam ++ colorReset))
  else Outcome.ret none

def validateYear (year : GoString) : Outcome :=
  let r := Atoi year
  if r.2 ≠ none then
    Outcome.fatal (colorRed ++ "year must be numeric: ".toList ++ year ++ colorReset ++ "\n".toList)
  else
    let y := r.1
    if y < 1996 ∨ y > 2025 then
      Outcome.ret (some (colorRed ++ "year ".toList ++ Itoa y
        ++ " is out of range (1996-2025)".toList ++ colorReset))
    else Outcome.ret none

def validateBoard (caseTable : Char → Char) (board : GoString) : Outcome :=
  if !(mapIndex validBoards (ToLower caseTable board)) then
    Outcome.ret (some (colorRed ++ "invalid board value: ".toList ++ board ++ colorReset))
  else Outcome.ret none

def validateRoll (roll : GoString) : Outcome :=
  if (Atoi roll).2 ≠ none then
    Outcome.ret (some (colorRed ++ "roll must be numeric: ".toList ++ roll ++ colorReset))
  else Outcome.ret none

def validateReg (reg : GoString) : Outcome :=
  if (Atoi reg).2 ≠ none then
    Outcome.ret (some (colorRed ++ "reg must be numeric: ".toList ++ reg ++ colorReset))
  else Outcome.ret none

/-- The statement `if err := check; err != nil { return err }` followed by
`rest`: a returned error is returned at once, a fatal exit ends everything, and
`rest` runs only after `nil`. -/
def Outcome.andThen (check : Outcome) (rest : Unit → Outcome) : Outcome :=
  match check with
  | Outcome.ret none => rest ()
  | Outcome.ret (some err) => Outcome.ret (some err)
  | Outcome.fatal msg => Outcome.fatal msg

def validateFormInputs (caseTable : Char → Char) (exam year board roll reg : GoString) :
    Outcome :=
  (validateExam caseTable exam).andThen fun _ =>
  (validateYear year).andThen fun _ =>
  (validateBoard caseTable board).andThen fun _ =>
  (validateRoll roll).andThen fun _ =>
  (validateReg reg).andThen fun _ =>
  Outcome.ret none

/-! ## The remote configuration loader -/

/-- A decoded JSON value (`interface{}` after `json.Unmarshal`): a boolean, a
string, or anything else (null, number, array, object). -/
inductive JSONValue where
  | bool (b : Bool)
  | str (s : GoString)
  | other
  deriving DecidableEq

/-- The struct `APIResponse`: two arrays of key/value maps. -/
structure APIResponse where
  ScrapperConfig : List (List (GoString × JSONValue))
  EducationBoardResults : List (List (GoString × JSONValue))
  deriving DecidableEq

/-- The package-level configuration variables. -/
structure Settings where
  headless : Bool
  startMaximized : Bool
  disableGPU : Bool
  statusAPI : GoString
  matchingCellSelector : GoString
  nameSelector : GoString
  gpaSelector : GoString
  resultSelector : GoString
  subjectScript : GoString
  deriving DecidableEq

/-- The declared initial values of the configuration variables. -/
def initialSettings : Settings :=
  { headless := false, startMaximized := true, disableGPU := false, statusAPI := [],
    matchingCellSelector := [], nameSelector := [], gpaSelector := [],
    resultSelector := [], subjectScript := [] }

/-- The type assertion `v.(bool)`; `none` is the run-time panic. -/
def assertBool : JSONValue → Option Bool
  | JSONValue.bool b => some b
  | _ => none

/-- The type assertion `v.(string)`; `none` is the run-time panic. -/
def assertString : JSONValue → Option GoString
  | JSONValue.str s => some s
  | _ => none

/-- The `switch k` of the first loop of `fetchConfig`, for one key and value. -/
def setScraperKey (st : Settings) (k : GoString) (v : JSONValue) : Option Settings :=
  if k = "headless".toList then (assertBool v).map fun b => { st with headless := b }
  else if k = "start-maximized".toList then
    (assertBool v).map fun b => { st with startMaximized := b }
  else if k = "disable-gpu".toList then (assertBool v).map fun b => { st with disableGPU := b }
  else some st

/-- The `switch k` of the second loop of `fetchConfig`, for one key and value. -/
def setBoardKey (st : Settings) (k : GoString) (v : JSONValue) : Option Settings :=
  if k = "matching_cell_01".toList then
    (assertString v).map fun x => { st with matchingCellSelector := x }
  else if k = "students_name_cell".toList then
    (assertString v).map fun x => { st with nameSelector := x }
  else if k = "students_gpa_cell".toList then
    (assertString v).map fun x => { st with gpaSelector := x }
  else if k = "student_result_cell".toList then
    (assertString v).map fun x => { st with resultSelector := x }
  else if k = "execution_subject_js_script".toList then
    (assertString v).map fun x => { st with subjectScript := x }
  else if k = "status_api".toList then (assertString v).map fun x => { st with statusAPI := x }
  else some st

/-- The inner loop `for k, v := range config` over one map, given as the list
of its entries.  (A Go map holds a key once and every key sets its own
variable, so the unspecified order of the iteration does not show.) -/
def rangeMap (f : Settings → GoString → JSONValue → Option Settings) :
    List (GoString × JSONValue) → Settings → Option Settings
  | [], st => some st
  | (k, v) :: rest, st =>
    match f st k v with
    | none => none
    | some st1 => rangeMap f rest st1

/-- The outer loop `for _, config := range ...` over an array of maps. -/
def rangeArray (f : Settings → GoString → JSONValue → Option Settings) :
    List (List (GoString × JSONValue)) → Settings → Option Settings
  | [], st => some st
  | config :: rest, st =>
    match rangeMap f config st with
    | none => none
    | some st1 => rangeArray f rest st1

/-- What the network fetch and the JSON decoding of `fetchConfig` produce: one
of the three failures (with the error text `%v` prints) or the decoded
response. -/
inductive Fetched where
  | getFailed (err : GoString)
  | readFailed (err : GoString)
  | parseFailed (err : GoString)
  | parsed (resp : APIResponse)
  deriving DecidableEq

/-- The function `fetchConfig`: the variables after the call and the returned
error; `none` when a type assertion panics. -/
def fetchConfig (st : Settings) (f : Fetched) : Option (Settings × Option GoString) :=
  match f with
  | Fetched.getFailed err => some (st, some ("failed to fetch config: ".toList ++ err))
  | Fetched.readFailed err => some (st, some ("failed to read response body: ".toList ++ err))
  | Fetched.parseFailed err => some (st, some ("failed to parse API response: ".toList ++ err))
  | Fetched.parsed apiResponse =>
    match rangeArray setScraperKey apiResponse.ScrapperConfig st with
    | none => none
    | some st1 =>
      match rangeArray setBoardKey apiResponse.EducationBoardResults st1 with
      | none => none
      | some st2 =>
        if st2.statusAPI ≠ "enabled".toList then
          some (st2, some ("service unavailable (status_api: ".toList ++ st2.statusAPI
            ++ ")".toList))
        else some (st2, none)

/-! ## The program -/

def exam : GoString := "".toList
def year : GoString := "".toList
def board : GoString := "".toList
def roll : GoString := "".toList
def reg : GoString := "".toList

/-- How far `main` gets before the browser: a fatal exit with a logged message,
a panic, or the start of the browser sequence (`chromedp.Run`) with the loaded
settings. -/
inductive MainOutcome where
  | fatal (msg : GoString)
  | panicked
  | browser (st : Settings)
  deriving DecidableEq

/-- The function `main` up to the call of `chromedp.Run`. -/
def main (caseTable : Char → Char) (f : Fetched) : MainOutcome :=
  match fetchConfig initialSettings f with
  | none => MainOutcome.panicked
  | some (_, some err) => MainOutcome.fatal (colorRed ++ err ++ colorReset)
  | some (st, none) =>
    match validateFormInputs caseTable exam year board roll reg with
    | Outcome.fatal msg => MainOutcome.fatal msg
    | Outcome.ret (some err) =>
      MainOutcome.fatal (colorRed ++ "Validation failed: ".toList ++ err ++ colorReset)
    | Outcome.ret none => MainOutcome.browser st

/-! ## The captcha-locating step -/

/-- How the captcha-locating action ends: with a panic (index out of range), or
by returning an error value (`none` is `nil`), the variable `captchaValue`, and
the list of XPaths whose text was read from the page. -/
inductive StepOutcome where
  | panicked
  | returned (err : Option GoString) (captchaValue : GoString) (reads : List GoString)
  deriving DecidableEq

/-- The first `chromedp.ActionFunc` of `main`.  `query` is what
`chromedp.Nodes(matchingCellSelector, &nodes, chromedp.ByQueryAll)` gives,
`FullXPath` the method of a node, `Text` the page text `chromedp.Text` reads at
an XPath (or its error), `captchaValue` the variable before the step. -/
def locateCaptcha {Node : Type} (FullXPath : Node → GoString)
    (Text : GoString → Except GoString GoString) (query : Except GoString (List Node))
    (captchaValue : GoString) : StepOutcome :=
  match query with
  | Except.error err => StepOutcome.returned (some err) captchaValue []
  | Except.ok nodes =>
    if nodes.length < 13 then
      StepOutcome.returned
        (some ("insufficient matching cells found: ".toList ++ Itoa (nodes.length : Int)))
        captchaValue []
    else
      match nodes[12]? with
      | none => StepOutcome.panicked
      | some node =>
        let nodeXPath := FullXPath node
        match Text nodeXPath with
        | Except.error err => StepOutcome.returned (some err) captchaValue [nodeXPath]
        | Except.ok text => StepOutcome.returned none text [nodeXPath]

/-! ## Specification-side notions -/

/-- The value of a string of decimal digits read after the number `n`. -/
def decVal : GoString → Nat → Nat
  | [], n => n
  | c :: rest, n => decVal rest (n * 10 + (c.toNat - 48))

/-- A non-empty string of ASCII decimal digits. -/
def isDigits (s : GoString) : Bool := !s.isEmpty && s.all isDigit

/-- The integer a string denotes: an optional sign `+` or `-` followed by a
non-empty string of decimal digits; `none` for every other string. -/
def parseDecimal (s : GoString) : Option Int :=
  match s with
  | [] => none
  | c :: rest =>
    if c = '-' then (if isDigits rest then some (-(decVal rest 0 : Int)) else none)
    else if c = '+' then (if isDigits rest then some (decVal rest 0 : Int) else none)
    else if isDigits s then some (decVal s 0 : Int) else none

/-- The decimal form of a natural number: its digits, most significant first. -/
def decimalNat (u : Nat) : GoString :=
  if u = 0 then ['0'] else (Nat.digits 10 u).reverse.map digitChar

/-- The decimal form of an integer: the decimal form of its magnitude, after a
minus sign when it is negative. -/
def decimal (a : Int) : GoString :=
  if a < 0 then '-' :: decimalNat a.natAbs else decimalNat a.natAbs

/-- The seven exam codes. -/
def examCodes : List GoString :=
  ["ssc".toList, "jsc".toList, "ssc_voc".toList, "hsc".toList, "hsc_voc".toList,
   "hsc_hbm".toList, "hsc_dic".toList]

/-- The twelve board codes. -/
def boardCodes : List GoString :=
  ["barisal".toList, "chittagong".toList, "comilla".toList, "dhaka".toList,
   "dinajpur".toList, "jessore".toList, "mymensingh".toList, "rajshahi".toList,
   "sylhet".toList, "madrasah".toList, "tec".toList, "dibs".toList]

/-- Two characters that are the same ignoring letter case: they are equal, or
one is a capital letter `A` to `Z` (codes 65 to 90) and the other the small
letter 32 places after it. -/
def sameLetter (a b : Char) : Bool :=
  decide (a = b) ||
  decide (65 ≤ a.toNat ∧ a.toNat ≤ 90 ∧ b.toNat = a.toNat + 32) ||
  decide (65 ≤ b.toNat ∧ b.toNat ≤ 90 ∧ a.toNat = b.toNat + 32)

/-- Equality of two strings ignoring letter case: the same length, and at every
position the same character ignoring letter case. -/
def equalIgnoringCase : GoString → GoString → Bool
  | [], [] => true
  | a :: s, b :: t => sameLetter a b && equalIgnoringCase s t
  | _, _ => false

/-- The string `s` read as the code `t`: position by position, an ASCII
character of `s` is the character of `t` ignoring letter case, and a rune
outside ASCII has the character of `t` as its lower-case form in the case
table. -/
def readsAs (caseTable : Char → Char) : GoString → GoString → Bool
  | [], [] => true
  | a :: s, b :: t =>
    (if a.toNat ≤ 127 then sameLetter a b else decide (caseTable a = b))
      && readsAs caseTable s t
  | _, _ => false

/-- A case table holding the entry of `unicode.CaseRanges` for U+0130, the
capital letter I with a dot above, whose lower-case form is U+0069 (`i`); every
other rune is left as it is. -/
def dottedCapitalI (r : Char) : Char := if r.toNat = 304 then 'i' else r

/-- The outcome of the first check, in the given order, that does not return
`nil`; `nil` when every check returns `nil`. -/
def firstFailure : List Outcome → Outcome
  | [] => Outcome.ret none
  | o :: rest => if o = Outcome.ret none then firstFailure rest else o

/-- The keys of a `scrapper_config` entry that `fetchConfig` reads, as booleans. -/
def scraperKeys : List GoString :=
  ["headless".toList, "start-maximized".toList, "disable-gpu".toList]

/-- The keys of an `educationboardresults_01` entry that `fetchConfig` reads, as
strings. -/
def boardKeys : List GoString :=
  ["matching_cell_01".toList, "students_name_cell".toList, "students_gpa_cell".toList,
   "student_result_cell".toList, "execution_subject_js_script".toList, "status_api".toList]

/-- A well-typed response: every flag the loader reads is a boolean and every
selector, script and status it reads is a string. -/
def wellTyped (resp : APIResponse) : Bool :=
  resp.ScrapperConfig.all (fun config =>
    config.all fun kv => decide (kv.1 ∈ scraperKeys → (assertBool kv.2).isSome)) &&
  resp.EducationBoardResults.all (fun config =>
    config.all fun kv => decide (kv.1 ∈ boardKeys → (assertString kv.2).isSome))

/-- The string values one map supplies for `status_api`, in order. -/
def statusValues (config : List (GoString × JSONValue)) : List GoString :=
  config.filterMap fun kv => if kv.1 = "status_api".toList then assertString kv.2 else none

/-- The string values the response supplies for `status_api`, in order. -/
def suppliedStatus (resp : APIResponse) : List GoString :=
  (resp.EducationBoardResults.map statusValues).flatten

/-- The text of the service-unavailable error for an observed status value. -/
def serviceUnavailable (status : GoString) : GoString :=
  "service unavailable (status_api: ".toList ++ status ++ ")".toList

/-- Is the value in the range of `int`? -/
def inIntRange (v : Int) : Prop := -2 ^ 63 ≤ v ∧ v < 2 ^ 63

instance (v : Int) : Decidable (inIntRange v) := by unfold inIntRange; infer_instance

/-! ## Facts about digits and the conversion loops -/

theorem isDigit_iff (c : Char) : isDigit c = true ↔ 48 ≤ c.toNat ∧ c.toNat ≤ 57 := by
  simp [isDigit]

theorem toNat_digitChar (d : Nat) (h : d < 10) : (digitChar d).toNat = 48 + d := by
  unfold digitChar
  interval_cases d <;> rfl

theorem isDigit_digitChar (d : Nat) (h : d < 10) : isDigit (digitChar d) = true := by
  rw [isDigit_iff, toNat_digitChar d h]
  omega

theorem decVal_append (l r : GoString) (n : Nat) :
    decVal (l ++ r) n = decVal r (decVal l n) := by
  induction l generalizing n with
  | nil => rfl
  | cons c l ih => simp [decVal, ih]

theorem le_decVal (s : GoString) (n : Nat) : n ≤ decVal s n := by
  induction s generalizing n with
  | nil => simp [decVal]
  | cons c s ih =>
    have := ih (n * 10 + (c.toNat - 48))
    simp only [decVal]
    omega

theorem decVal_lt (s : GoString) (n : Nat) (h : s.all isDigit = true) :
    decVal s n < (n + 1) * 10 ^ s.length := by
  induction s generalizing n with
  | nil => simp [decVal]
  | cons c s ih =>
    simp only [List.all_cons, Bool.and_eq_true, isDigit_iff] at h
    have h1 := ih (n * 10 + (c.toNat - 48)) h.2
    simp only [decVal, List.length_cons, pow_succ]
    have h2 : (n * 10 + (c.toNat - 48) + 1) * 10 ^ s.length ≤ (n + 1) * (10 ^ s.length * 10) := by
      have h3 : n * 10 + (c.toNat - 48) + 1 ≤ (n + 1) * 10 := by omega
      calc (n * 10 + (c.toNat - 48) + 1) * 10 ^ s.length
          ≤ ((n + 1) * 10) * 10 ^ s.length := Nat.mul_le_mul_right _ h3
        _ = (n + 1) * (10 ^ s.length * 10) := by ring
    omega

theorem atoiLoop_eq (s : GoString) (n : Nat) :
    atoiLoop s n = if s.all isDigit then some (decVal s n) else none := by
  induction s generalizing n with
  | nil => simp [atoiLoop, decVal]
  | cons c s ih =>
    simp only [atoiLoop, List.all_cons, decVal]
    by_cases hc : isDigit c = true
    · simp [hc, ih]
    · simp [hc]

theorem parseUintLoop_digits (s : GoString) (n : Nat) (h : s.all isDigit = true)
    (hn : n < 2 ^ 64) :
    parseUintLoop s n =
      if decVal s n < 2 ^ 64 then (decVal s n, none) else (maxUint64, some NumError.ErrRange) := by
  induction s generalizing n with
  | nil =>
    simp only [parseUintLoop, decVal]
    rw [if_pos hn]
  | cons c s ih =>
    simp only [List.all_cons, Bool.and_eq_true] at h
    obtain ⟨hc, hs⟩ := h
    have hc2 := (isDigit_iff c).1 hc
    have hd : digitOf c = some (c.toNat - 48) := by simp [digitOf, hc]
    simp only [parseUintLoop, hd, decVal]
    have hle := le_decVal s (n * 10 + (c.toNat - 48))
    have hlt : ¬ (c.toNat - 48 ≥ 10) := by omega
    rw [if_neg hlt]
    by_cases hcut : n ≥ maxUint64 / 10 + 1
    · rw [if_pos hcut]
      have : ¬ decVal s (n * 10 + (c.toNat - 48)) < 2 ^ 64 := by
        simp only [maxUint64] at hcut
        omega
      rw [if_neg this]
    · rw [if_neg hcut]
      simp only [maxUint64] at hcut
      by_cases hov : n * 10 + (c.toNat - 48) < 2 ^ 64
      · have hmod : (n * 10 + (c.toNat - 48)) % 2 ^ 64 = n * 10 + (c.toNat - 48) :=
          Nat.mod_eq_of_lt hov
        simp only [hmod]
        have : ¬ (n * 10 + (c.toNat - 48) < n * 10 ∨ n * 10 + (c.toNat - 48) > maxUint64) := by
          simp only [maxUint64]
          omega
        rw [if_neg this]
        exact ih _ hs hov
      · have hmod : (n * 10 + (c.toNat - 48)) % 2 ^ 64 = n * 10 + (c.toNat - 48) - 2 ^ 64 := by
          rw [Nat.mod_eq_sub_mod (by omega)]
          exact Nat.mod_eq_of_lt (by omega)
        simp only [hmod]
        have h1 : n * 10 + (c.toNat - 48) - 2 ^ 64 < n * 10 ∨
            n * 10 + (c.toNat - 48) - 2 ^ 64 > maxUint64 := by
          left
          omega
        rw [if_pos h1]
        have : ¬ decVal s (n * 10 + (c.toNat - 48)) < 2 ^ 64 := by omega
        rw [if_neg this]

theorem digitOf_not_digit (c : Char) (hc : isDigit c = false) :
    digitOf c = none ∨ ∃ d, digitOf c = some d ∧ d ≥ 10 := by
  unfold digitOf
  rw [if_neg (by simp [hc])]
  by_cases h1 : 97 ≤ c.toNat ∧ c.toNat ≤ 122
  · rw [if_pos h1]
    exact Or.inr ⟨_, rfl, by omega⟩
  · rw [if_neg h1]
    by_cases h2 : 65 ≤ c.toNat ∧ c.toNat ≤ 90
    · rw [if_pos h2]
      exact Or.inr ⟨_, rfl, by omega⟩
    · rw [if_neg h2]
      exact Or.inl rfl

theorem parseUintLoop_not_digits (s : GoString) (n : Nat) (h : s.all isDigit = false) :
    (parseUintLoop s n).2 = some NumError.ErrSyntax ∨
      parseUintLoop s n = (maxUint64, some NumError.ErrRange) := by
  induction s generalizing n with
  | nil => simp at h
  | cons c s ih =>
    simp only [parseUintLoop]
    by_cases hc : isDigit c = true
    · have hs : s.all isDigit = false := by
        simp only [List.all_cons, hc, Bool.true_and] at h
        exact h
      have hd : digitOf c = some (c.toNat - 48) := by simp [digitOf, hc]
      simp only [hd]
      split_ifs
      · simp
      · simp
      · simp
      · exact ih _ hs
    · rcases digitOf_not_digit c (by simpa using hc) with hd | ⟨d, hd, hd10⟩
      · simp [hd]
      · simp [hd, hd10]

theorem isDigits_iff (s : GoString) : isDigits s = true ↔ s ≠ [] ∧ s.all isDigit = true := by
  cases s <;> simp [isDigits]

theorem ParseUint_digits (b : GoString) (h : isDigits b = true) :
    ParseUint b =
      if decVal b 0 < 2 ^ 64 then (decVal b 0, none) else (maxUint64, some NumError.ErrRange) := by
  obtain ⟨h1, h2⟩ := (isDigits_iff b).1 h
  unfold ParseUint
  rw [if_neg h1]
  exact parseUintLoop_digits b 0 h2 (by norm_num)

theorem ParseUint_not_digits (b : GoString) (h : isDigits b = false) :
    (ParseUint b).2 = some NumError.ErrSyntax ∨
      ParseUint b = (maxUint64, some NumError.ErrRange) := by
  unfold ParseUint
  by_cases h1 : b = []
  · rw [if_pos h1]
    exact Or.inl rfl
  · rw [if_neg h1]
    apply parseUintLoop_not_digits
    cases hb : b.all isDigit
    · rfl
    · have := (isDigits_iff b).2 ⟨h1, hb⟩
      rw [h] at this
      cases this

/-- The sign and the digits of `parseDecimal`, as `ParseInt` and `Atoi` split them. -/
theorem parseDecimal_cons (c : Char) (rest : GoString) :
    parseDecimal (c :: rest) =
      if isDigits (if c = '+' ∨ c = '-' then rest else c :: rest) then
        some (if c = '-' then -(decVal (if c = '+' ∨ c = '-' then rest else c :: rest) 0 : Int)
          else (decVal (if c = '+' ∨ c = '-' then rest else c :: rest) 0 : Int))
      else none := by
  unfold parseDecimal
  by_cases h1 : c = '-'
  · subst h1
    simp
  · by_cases h2 : c = '+'
    · subst h2
      simp
    · simp [h1, h2]

theorem ParseInt_cons (c : Char) (rest body : GoString)
    (hbody : body = if c = '+' ∨ c = '-' then rest else c :: rest) :
    ParseInt (c :: rest) =
      if (ParseUint body).2 = some NumError.ErrSyntax then (0, (ParseUint body).2)
      else if c ≠ '-' ∧ (ParseUint body).1 ≥ 2 ^ 63 then
        (2 ^ 63 - 1, some NumError.ErrRange)
      else if c = '-' ∧ (ParseUint body).1 > 2 ^ 63 then
        (-2 ^ 63, some NumError.ErrRange)
      else (if c = '-' then -((ParseUint body).1 : Int) else ((ParseUint body).1 : Int), none) := by
  subst hbody
  simp only [ParseInt, intSize]
  by_cases h1 : c = '-' <;> simp [h1]

/-- `ParseInt` against `parseDecimal`: the value when the string denotes an
integer in range, an error in every other case. -/
theorem ParseInt_spec (s : GoString) :
    (∀ v, parseDecimal s = some v → inIntRange v → ParseInt s = (v, none)) ∧
    ((∀ v, parseDecimal s = some v → ¬ inIntRange v) → (ParseInt s).2 ≠ none) := by
  cases s with
  | nil => simp [parseDecimal, ParseInt]
  | cons c rest =>
    rw [parseDecimal_cons, ParseInt_cons c rest _ rfl]
    generalize (if c = '+' ∨ c = '-' then rest else c :: rest) = body
    cases hd : isDigits body with
    | false =>
      constructor
      · intro v hv
        simp at hv
      · intro _
        rcases ParseUint_not_digits body hd with h | h
        · rw [if_pos h, h]
          simp
        · rw [h]
          simp only [maxUint64]
          by_cases h1 : c = '-' <;> simp [h1]
    | true =>
      rw [ParseUint_digits body hd]
      simp only [if_true, Option.some.injEq, forall_eq', inIntRange]
      by_cases hu : decVal body 0 < 2 ^ 64
      · rw [if_pos hu]
        by_cases h1 : c = '-'
        · simp only [h1, if_true]
          constructor
          · intro hr
            simp
            omega
          · intro hr
            have : 9223372036854775808 < decVal body 0 := by omega
            simp [this]
        · simp only [h1, if_false]
          constructor
          · intro hr
            simp [h1]
            omega
          · intro hr
            have : 9223372036854775808 ≤ decVal body 0 := by omega
            simp [this, h1]
      · rw [if_neg hu]
        simp only [maxUint64]
        by_cases h1 : c = '-'
        · simp only [h1, if_true]
          constructor
          · intro hr
            omega
          · intro _
            simp
        · simp only [h1, if_false]
          constructor
          · intro hr
            omega
          · intro _
            simp [h1]

theorem length_le_len (s : GoString) : s.length ≤ len s := by
  induction s with
  | nil => simp [len]
  | cons c s ih =>
    have := Char.utf8Size_pos c
    simp only [len, List.map_cons, List.sum_cons, List.length_cons] at ih ⊢
    omega

theorem len_tail_le (c : Char) (s : GoString) : len s ≤ len (c :: s) := by
  simp [len]

theorem Atoi_cons_fast (c : Char) (rest body : GoString)
    (hbody : body = if c = '+' ∨ c = '-' then rest else c :: rest)
    (hlen : len (c :: rest) < 19) :
    Atoi (c :: rest) =
      if isDigits body then (if c = '-' then -(decVal body 0 : Int) else (decVal body 0 : Int), none)
      else (0, some NumError.ErrSyntax) := by
  have hb : (if c = '-' ∨ c = '+' then rest else c :: rest) = body := by
    rw [hbody]
    simp only [or_comm]
  simp only [Atoi, if_pos hlen, hb, atoiLoop_eq]
  cases body with
  | nil => simp [isDigits, len]
  | cons d ds =>
    have hl : ¬ len (d :: ds) < 1 := by
      have := length_le_len (d :: ds)
      simp only [List.length_cons] at this
      omega
    rw [if_neg hl]
    cases hd : (d :: ds).all isDigit with
    | false => simp [isDigits, hd]
    | true =>
      have : isDigits (d :: ds) = true := (isDigits_iff _).2 ⟨by simp, hd⟩
      simp [this]

theorem decVal_lt_of_short (body : GoString) (hd : isDigits body = true)
    (hlen : body.length < 19) : decVal body 0 < 10 ^ 18 := by
  have h1 := decVal_lt body 0 ((isDigits_iff body).1 hd).2
  have h2 : 10 ^ body.length ≤ 10 ^ 18 := Nat.pow_le_pow_right (by norm_num) (by omega)
  omega

/-- `Atoi` against `parseDecimal`: the value when the string denotes an integer
in the range of `int`, an error in every other case. -/
theorem Atoi_spec (s : GoString) :
    (∀ v, parseDecimal s = some v → inIntRange v → Atoi s = (v, none)) ∧
    ((∀ v, parseDecimal s = some v → ¬ inIntRange v) → (Atoi s).2 ≠ none) := by
  cases s with
  | nil => exact ParseInt_spec []
  | cons c rest =>
    by_cases hlen : len (c :: rest) < 19
    · rw [parseDecimal_cons, Atoi_cons_fast c rest _ rfl hlen]
      have hbl : (if c = '+' ∨ c = '-' then rest else c :: rest).length < 19 := by
        split_ifs
        · have h1 := length_le_len rest
          have h2 := len_tail_le c rest
          omega
        · have h1 := length_le_len (c :: rest)
          omega
      generalize (if c = '+' ∨ c = '-' then rest else c :: rest) = body at hbl
      cases hd : isDigits body with
      | false => simp
      | true =>
        have hv := decVal_lt_of_short body hd hbl
        simp only [if_true, Option.some.injEq, forall_eq', inIntRange]
        constructor
        · intro _
          trivial
        · intro hr
          exfalso
          apply hr
          split_ifs <;> omega
    · have : Atoi (c :: rest) = ParseInt (c :: rest) := by
        simp only [Atoi, if_neg hlen]
      rw [this]
      exact ParseInt_spec (c :: rest)

theorem Atoi_ok_iff (s : GoString) :
    (Atoi s).2 = none ↔ ∃ v, parseDecimal s = some v ∧ inIntRange v := by
  constructor
  · intro h
    by_contra hcon
    exact (Atoi_spec s).2 (fun v hv hr => hcon ⟨v, hv, hr⟩) h
  · rintro ⟨v, hv, hr⟩
    rw [(Atoi_spec s).1 v hv hr]

theorem Atoi_of_parseDecimal (s : GoString) (v : Int) (hv : parseDecimal s = some v)
    (hr : inIntRange v) : Atoi s = (v, none) :=
  (Atoi_spec s).1 v hv hr

/-! ## Facts about `Itoa` -/

theorem decimalNat_of_lt (u : Nat) (h : u < 10) : decimalNat u = [digitChar u] := by
  unfold decimalNat
  by_cases h0 : u = 0
  · subst h0
    rfl
  · rw [if_neg h0, Nat.digits_of_lt 10 u h0 h]
    rfl

theorem decimalNat_of_ge (u : Nat) (h : 10 ≤ u) :
    decimalNat u = decimalNat (u / 10) ++ [digitChar (u % 10)] := by
  unfold decimalNat
  have h0 : u ≠ 0 := by omega
  have h1 : u / 10 ≠ 0 := by omega
  rw [if_neg h0, if_neg h1, Nat.digits_def' (by norm_num) (by omega)]
  simp

theorem formatLoop_eq (k u : Nat) (acc : GoString) (hk : 0 < k) (hu : u < 10 ^ k) :
    formatLoop k u acc = decimalNat u ++ acc := by
  induction k generalizing u acc with
  | zero => omega
  | succ k ih =>
    simp only [formatLoop]
    by_cases h : u < 10
    · rw [if_pos h, decimalNat_of_lt u h]
      rfl
    · rw [if_neg h, decimalNat_of_ge u (by omega)]
      have hu2 : u / 10 < 10 ^ k := by
        rw [pow_succ] at hu
        omega
      have hk2 : 0 < k := by
        rcases Nat.eq_zero_or_pos k with h0 | h0
        · subst h0
          simp at hu2
          omega
        · exact h0
      rw [ih (u / 10) _ hk2 hu2]
      simp

theorem formatBits_eq (u : Nat) (hu : u < 10 ^ 20) : formatBits u = decimalNat u := by
  unfold formatBits
  rw [formatLoop_eq 20 u [] (by norm_num) hu]
  simp

theorem Itoa_eq_decimal (a : Int) (h1 : -2 ^ 64 < a) (h2 : a < 2 ^ 64) : Itoa a = decimal a := by
  unfold Itoa decimal toUint64
  by_cases h : a < 0
  · rw [if_pos h, if_pos h]
    have e : ((-a) % 2 ^ 64).toNat = a.natAbs := by omega
    rw [e, formatBits_eq]
    omega
  · rw [if_neg h, if_neg h]
    have e : (a % 2 ^ 64).toNat = a.natAbs := by omega
    rw [e, formatBits_eq]
    omega

theorem decimalNat_digits (u : Nat) : isDigits (decimalNat u) = true ∧ decVal (decimalNat u) 0 = u := by
  induction u using Nat.strong_induction_on with
  | _ u ih =>
    by_cases h : u < 10
    · rw [decimalNat_of_lt u h]
      have := toNat_digitChar u h
      have := isDigit_digitChar u h
      simp [isDigits, decVal, *]
    · rw [decimalNat_of_ge u (by omega)]
      obtain ⟨i1, i2⟩ := ih (u / 10) (by omega)
      have hm : u % 10 < 10 := Nat.mod_lt _ (by norm_num)
      have t1 := toNat_digitChar (u % 10) hm
      have t2 := isDigit_digitChar (u % 10) hm
      obtain ⟨j1, j2⟩ := (isDigits_iff _).1 i1
      constructor
      · rw [isDigits_iff]
        constructor
        · simp
        · simp [j2, t2]
      · rw [decVal_append, i2]
        simp only [decVal, t1]
        omega

theorem parseDecimal_of_isDigits (s : GoString) (h : isDigits s = true) :
    parseDecimal s = some (decVal s 0 : Int) := by
  cases s with
  | nil => simp [isDigits] at h
  | cons c rest =>
    have hc : isDigit c = true := by
      have := ((isDigits_iff _).1 h).2
      simp only [List.all_cons, Bool.and_eq_true] at this
      exact this.1
    rw [isDigit_iff] at hc
    have h1 : c ≠ '-' := by
      rintro rfl
      revert hc
      decide
    have h2 : c ≠ '+' := by
      rintro rfl
      revert hc
      decide
    simp only [parseDecimal, if_neg h1, if_neg h2, h, if_true]

theorem parseDecimal_decimal (a : Int) : parseDecimal (decimal a) = some a := by
  unfold decimal
  obtain ⟨h1, h2⟩ := decimalNat_digits a.natAbs
  by_cases h : a < 0
  · rw [if_pos h]
    simp only [parseDecimal, if_true, h1, h2]
    congr 1
    omega
  · rw [if_neg h, parseDecimal_of_isDigits _ h1, h2]
    congr 1
    omega

theorem Atoi_decimal (a : Int) (h : inIntRange a) : Atoi (decimal a) = (a, none) :=
  Atoi_of_parseDecimal _ a (parseDecimal_decimal a) h

theorem wrapInt_of_inIntRange (v : Int) (h : inIntRange v) : wrapInt v = v := by
  unfold inIntRange at h
  unfold wrapInt
  omega

theorem inIntRange_wrapInt (v : Int) : inIntRange (wrapInt v) := by
  unfold inIntRange wrapInt
  omega

theorem Itoa_of_inIntRange (v : Int) (h : inIntRange v) : Itoa v = decimal v := by
  unfold inIntRange at h
  exact Itoa_eq_decimal v (by omega) (by omega)

/-- Every character of a decimal form is a digit or the minus sign. -/
theorem decimal_chars (a : Int) : ∀ c ∈ decimal a, isDigit c = true ∨ c = '-' := by
  have h := ((isDigits_iff _).1 (decimalNat_digits a.natAbs).1).2
  rw [List.all_eq_true] at h
  intro c hc
  unfold decimal at hc
  split_ifs at hc
  · rcases List.mem_cons.1 hc with h1 | h1
    · exact Or.inr h1
    · exact Or.inl (h c h1)
  · exact Or.inl (h c hc)

theorem decimal_ne_nil (a : Int) : decimal a ≠ [] := by
  have h := ((isDigits_iff _).1 (decimalNat_digits a.natAbs).1).1
  unfold decimal
  split_ifs
  · simp
  · exact h

theorem not_IsSpace_of_decimal_char (c : Char) (h : isDigit c = true ∨ c = '-') :
    IsSpace c = false := by
  rcases h with h | h
  · rw [isDigit_iff] at h
    unfold IsSpace
    simp only []
    rw [if_pos (by omega)]
    simp
    omega
  · subst h
    decide

theorem ne_plus_of_decimal_char (c : Char) (h : isDigit c = true ∨ c = '-') : c ≠ '+' := by
  rintro rfl
  revert h
  decide

/-! ## Facts about `Split` and `TrimSpace` -/

theorem Split_of_not_mem (s : GoString) (sep : Char) (h : ∀ c ∈ s, c ≠ sep) :
    Split s sep = [s] := by
  induction s with
  | nil => rfl
  | cons c s ih =>
    have hc : c ≠ sep := h c (List.mem_cons_self _ _)
    have hs := ih (fun x hx => h x (List.mem_cons_of_mem _ hx))
    simp only [Split, if_neg hc, hs]

theorem Split_ne_nil (s : GoString) (sep : Char) : Split s sep ≠ [] := by
  induction s with
  | nil => simp [Split]
  | cons c s ih =>
    simp only [Split]
    split_ifs
    · simp
    · split <;> simp

theorem Split_length (s : GoString) (sep : Char) :
    (Split s sep).length = s.count sep + 1 := by
  induction s with
  | nil => simp [Split]
  | cons c s ih =>
    by_cases hc : c = sep
    · subst hc
      simp [Split, ih]
    · have hb : (c == sep) = false := by simp [hc]
      simp only [Split, if_neg hc, List.count_cons, hb]
      cases hs : Split s sep with
      | nil => exact absurd hs (Split_ne_nil s sep)
      | cons q qs =>
        rw [hs] at ih
        simp only [List.length_cons] at ih ⊢
        simpa using ih

theorem Split_append_sep (l r : GoString) (sep : Char) (h : ∀ c ∈ l, c ≠ sep) :
    Split (l ++ sep :: r) sep = l :: Split r sep := by
  induction l with
  | nil => simp [Split]
  | cons c l ih =>
    have hc : c ≠ sep := h c (List.mem_cons_self _ _)
    have hs := ih (fun x hx => h x (List.mem_cons_of_mem _ hx))
    show Split (c :: (l ++ sep :: r)) sep = (c :: l) :: Split r sep
    simp only [Split, if_neg hc, hs]

theorem dropWhile_of_none {p : Char → Bool} (s : GoString) (h : ∀ c ∈ s, p c = false) :
    s.dropWhile p = s := by
  cases s with
  | nil => rfl
  | cons c s =>
    have := h c (List.mem_cons_self _ _)
    simp [List.dropWhile, this]

theorem TrimSpace_padded (s : GoString) (h : ∀ c ∈ s, IsSpace c = false) :
    TrimSpace s = s ∧ TrimSpace (s ++ [' ']) = s ∧ TrimSpace (' ' :: s) = s := by
  have hsp : IsSpace ' ' = true := by decide
  have hr : ∀ c ∈ s.reverse, IsSpace c = false := fun c hc => h c (List.mem_reverse.1 hc)
  have e1 : TrimSpace s = s := by
    unfold TrimSpace
    rw [dropWhile_of_none s h, dropWhile_of_none _ hr, List.reverse_reverse]
  refine ⟨e1, ?_, ?_⟩
  · unfold TrimSpace
    cases s with
    | nil => simp [List.dropWhile, hsp]
    | cons c s =>
      have hc := h c (List.mem_cons_self _ _)
      have : (c :: s ++ [' ']).dropWhile IsSpace = c :: s ++ [' '] := by
        simp [List.dropWhile, hc]
      rw [this]
      simp only [List.reverse_append, List.reverse_cons, List.reverse_nil, List.nil_append,
        List.singleton_append, List.dropWhile, hsp]
      have h2 := dropWhile_of_none _ hr
      simp only [List.reverse_cons] at h2
      rw [h2]
      simp
  · have : TrimSpace (' ' :: s) = TrimSpace s := by
      unfold TrimSpace
      simp [List.dropWhile, hsp]
    rw [this, e1]

/-! ## The captcha solver: theorems -/

theorem calculateCaptcha_of_parts (s p0 p1 : GoString) (h : Split s '+' = [p0, p1]) :
    calculateCaptcha s =
      if (Atoi (TrimSpace p0)).2 ≠ none then []
      else if (Atoi (TrimSpace p1)).2 ≠ none then []
      else Itoa (wrapInt ((Atoi (TrimSpace p0)).1 + (Atoi (TrimSpace p1)).1)) := by
  simp only [calculateCaptcha, h]

theorem Split_captcha (a b : Int) :
    Split (decimal a ++ " + ".toList ++ decimal b) '+' = [decimal a ++ [' '], ' ' :: decimal b] := by
  have e : decimal a ++ " + ".toList ++ decimal b
      = (decimal a ++ [' ']) ++ '+' :: (' ' :: decimal b) := by
    simp
  have h1 : ∀ c ∈ decimal a ++ [' '], c ≠ '+' := by
    intro c hc
    rcases List.mem_append.1 hc with h | h
    · exact ne_plus_of_decimal_char c (decimal_chars a c h)
    · simp only [List.mem_singleton] at h
      subst h
      decide
  have h2 : ∀ c ∈ ' ' :: decimal b, c ≠ '+' := by
    intro c hc
    rcases List.mem_cons.1 hc with h | h
    · subst h
      decide
    · exact ne_plus_of_decimal_char c (decimal_chars b c h)
  rw [e, Split_append_sep _ _ _ h1, Split_of_not_mem _ _ h2]

/-- On the decimal forms of two `int` values the solver returns the decimal
form of their 64-bit sum. -/
theorem calculateCaptcha_decimal (a b : Int) (ha : inIntRange a) (hb : inIntRange b) :
    calculateCaptcha (decimal a ++ " + ".toList ++ decimal b) = decimal (wrapInt (a + b)) := by
  have ta := (TrimSpace_padded (decimal a)
    (fun c hc => not_IsSpace_of_decimal_char c (decimal_chars a c hc))).2.1
  have tb := (TrimSpace_padded (decimal b)
    (fun c hc => not_IsSpace_of_decimal_char c (decimal_chars b c hc))).2.2
  rw [calculateCaptcha_of_parts _ _ _ (Split_captcha a b), ta, tb, Atoi_decimal a ha,
    Atoi_decimal b hb]
  simp only [ne_eq, not_true_eq_false, if_false]
  exact Itoa_of_inIntRange _ (inIntRange_wrapInt _)

/-- C1 (as amended): for all integers `a` and `b` that lie, together with their
sum, in the range of the 64-bit `int`, `calculateCaptcha` applied to the decimal
form of `a`, a space, `+`, a space and the decimal form of `b` returns the
decimal form of `a + b`. -/
theorem calculateCaptcha_sum (a b : Int) (ha : inIntRange a) (hb : inIntRange b)
    (hab : inIntRange (a + b)) :
    calculateCaptcha (decimal a ++ " + ".toList ++ decimal b) = decimal (a + b) := by
  rw [calculateCaptcha_decimal a b ha hb, wrapInt_of_inIntRange _ hab]

/-- C1, witness: the example `12 + 7` of the specification. -/
theorem calculateCaptcha_sum_witness :
    calculateCaptcha (decimal 12 ++ " + ".toList ++ decimal 7) = decimal (12 + 7) :=
  calculateCaptcha_sum 12 7 (by decide) (by decide) (by decide)

/-- C1, counterexample: for `a = 9223372036854775807` and `b = 1` the input is
`9223372036854775807 + 1`, the decimal form of `a + b` is `9223372036854775808`,
and `calculateCaptcha` returns `-9223372036854775808`; an operand outside the
range of `int`, as in `9223372036854775808 + 0`, gives the empty string. -/
theorem calculateCaptcha_sum_overflow :
    decimal 9223372036854775807 ++ " + ".toList ++ decimal 1
        = "9223372036854775807 + 1".toList ∧
      decimal (9223372036854775807 + 1) = "9223372036854775808".toList ∧
      calculateCaptcha "9223372036854775807 + 1".toList = "-9223372036854775808".toList ∧
      calculateCaptcha (decimal 9223372036854775807 ++ " + ".toList ++ decimal 1)
        ≠ decimal (9223372036854775807 + 1) ∧
      calculateCaptcha "9223372036854775808 + 0".toList = [] := by
  have e1 : decimal 9223372036854775807 = "9223372036854775807".toList := by
    rw [← Itoa_eq_decimal _ (by norm_num) (by norm_num)]
    decide
  have e2 : decimal 1 = "1".toList := by
    rw [← Itoa_eq_decimal _ (by norm_num) (by norm_num)]
    decide
  have e3 : decimal (9223372036854775807 + 1) = "9223372036854775808".toList := by
    rw [← Itoa_eq_decimal _ (by norm_num) (by norm_num)]
    decide
  rw [e1, e2, e3]
  decide

theorem calculateCaptcha_cases (s : GoString) :
    (calculateCaptcha s = [] ↔
      ((Split s '+').length ≠ 2 ∨ ∃ p ∈ Split s '+', (Atoi (TrimSpace p)).2 ≠ none)) ∧
    (calculateCaptcha s ≠ [] →
      ∃ v : Int, inIntRange v ∧ calculateCaptcha s = decimal v ∧ decimal v ≠ []) := by
  have key : ∀ v : Int, Itoa (wrapInt v) = decimal (wrapInt v) ∧ decimal (wrapInt v) ≠ [] :=
    fun v => ⟨Itoa_of_inIntRange _ (inIntRange_wrapInt _), decimal_ne_nil _⟩
  match hs : Split s '+' with
  | [] => simp [calculateCaptcha, hs]
  | [p] => simp [calculateCaptcha, hs]
  | p0 :: p1 :: p2 :: ps => simp [calculateCaptcha, hs]
  | [p0, p1] =>
    rw [calculateCaptcha_of_parts s p0 p1 hs]
    by_cases h0 : (Atoi (TrimSpace p0)).2 = none
    · by_cases h1 : (Atoi (TrimSpace p1)).2 = none
      · obtain ⟨k1, k2⟩ := key ((Atoi (TrimSpace p0)).1 + (Atoi (TrimSpace p1)).1)
        simp only [h0, h1, ne_eq, not_true_eq_false, if_false, k1]
        refine ⟨?_, fun _ => ⟨_, inIntRange_wrapInt _, rfl, k2⟩⟩
        simp [k2, h0, h1]
      · simp [h0, h1]
    · simp [h0]

/-- C2: `calculateCaptcha` returns the empty string exactly when splitting the
input on `+` does not give two parts (the input does not hold exactly one `+`)
or one of the parts, trimmed, is refused by `Atoi`; every other result is the
decimal form of an integer, hence not empty. -/
theorem calculateCaptcha_empty_iff (s : GoString) :
    (calculateCaptcha s = [] ↔
      ((Split s '+').length ≠ 2 ∨ ∃ p ∈ Split s '+', (Atoi (TrimSpace p)).2 ≠ none)) ∧
    ((Split s '+').length = 2 ↔ s.count '+' = 1) ∧
    (calculateCaptcha s ≠ [] →
      ∃ v : Int, inIntRange v ∧ calculateCaptcha s = decimal v ∧ decimal v ≠ []) := by
  refine ⟨(calculateCaptcha_cases s).1, ?_, (calculateCaptcha_cases s).2⟩
  rw [Split_length]
  omega

/-! ## The validator: theorems -/

theorem lowerASCII_of_not_upper (c : Char) (h : isUpperASCII c = false) : lowerASCII c = c := by
  simp [lowerASCII, h]

theorem ToLower_eq_map (caseTable : Char → Char) (s : GoString) :
    ToLower caseTable s = s.map (unicodeToLower caseTable) := by
  unfold ToLower
  by_cases h : s.all (fun c => decide (c.toNat < 128)) = true
  · rw [if_pos h]
    have hm : s.map (unicodeToLower caseTable) = s.map lowerASCII := by
      apply List.map_congr_left
      intro c hc
      have := List.all_eq_true.1 h c hc
      simp only [decide_eq_true_eq] at this
      unfold unicodeToLower
      rw [if_pos (by omega)]
    rw [hm]
    by_cases hu : s.any isUpperASCII = true
    · simp [hu]
    · simp only [Bool.not_eq_true] at hu
      simp only [hu, Bool.not_false, if_true]
      symm
      conv_rhs => rw [← List.map_id s]
      apply List.map_congr_left
      intro c hc
      have h2 : isUpperASCII c = false := by
        cases hcu : isUpperASCII c
        · rfl
        · have : s.any isUpperASCII = true := List.any_eq_true.2 ⟨c, hc, hcu⟩
          rw [hu] at this
          cases this
      simp [lowerASCII_of_not_upper c h2]
  · rw [if_neg h]

theorem eq_of_toNat_eq (a b : Char) (h : a.toNat = b.toNat) : a = b := by
  rw [← Char.ofNat_toNat a, ← Char.ofNat_toNat b, h]

theorem toNat_lowerASCII_upper (a : Char) (h : 65 ≤ a.toNat ∧ a.toNat ≤ 90) :
    (Char.ofNat (a.toNat + 32)).toNat = a.toNat + 32 := by
  obtain ⟨h1, h2⟩ := h
  generalize a.toNat = n at h1 h2
  interval_cases n <;> rfl

/-- Against a character that is not a capital letter, "the same ignoring letter
case" is "with this lower-case form". -/
theorem sameLetter_iff (a b : Char) (hb : ¬ (65 ≤ b.toNat ∧ b.toNat ≤ 90)) :
    sameLetter a b = true ↔ lowerASCII a = b := by
  unfold sameLetter lowerASCII isUpperASCII
  simp only [Bool.or_eq_true, decide_eq_true_eq, Bool.and_eq_true]
  by_cases hu : 65 ≤ a.toNat ∧ a.toNat ≤ 90
  · have hl := toNat_lowerASCII_upper a hu
    rw [if_pos hu]
    constructor
    · rintro ((h | h) | h)
      · subst h
        exact absurd hu hb
      · apply eq_of_toNat_eq
        rw [hl]
        exact h.2.2.symm
      · exact absurd ⟨h.1, h.2.1⟩ hb
    · intro h
      left
      right
      refine ⟨hu.1, hu.2, ?_⟩
      rw [← h, hl]
  · rw [if_neg hu]
    constructor
    · rintro ((h | h) | h)
      · exact h
      · exact absurd ⟨h.1, h.2.1⟩ hu
      · exact absurd ⟨h.1, h.2.1⟩ hb
    · intro h
      left
      left
      exact h

theorem readsAs_iff (caseTable : Char → Char) (s t : GoString)
    (ht : ∀ b ∈ t, ¬ (65 ≤ b.toNat ∧ b.toNat ≤ 90)) :
    readsAs caseTable s t = true ↔ s.map (unicodeToLower caseTable) = t := by
  induction s generalizing t with
  | nil => cases t <;> simp [readsAs]
  | cons a s ih =>
    cases t with
    | nil => simp [readsAs]
    | cons b t =>
      have hb := ht b (List.mem_cons_self _ _)
      have ih2 := ih t (fun x hx => ht x (List.mem_cons_of_mem _ hx))
      simp only [readsAs, Bool.and_eq_true, ih2, List.map_cons, List.cons.injEq, unicodeToLower]
      by_cases ha : a.toNat ≤ 127
      · simp only [if_pos ha, sameLetter_iff a b hb]
      · simp only [if_neg ha, decide_eq_true_eq]

theorem readsAs_ascii (caseTable : Char → Char) (s t : GoString)
    (hs : ∀ c ∈ s, c.toNat ≤ 127) : readsAs caseTable s t = equalIgnoringCase s t := by
  induction s generalizing t with
  | nil => cases t <;> rfl
  | cons a s ih =>
    cases t with
    | nil => rfl
    | cons b t =>
      have ha := hs a (List.mem_cons_self _ _)
      simp only [readsAs, equalIgnoringCase, if_pos ha,
        ih t (fun x hx => hs x (List.mem_cons_of_mem _ hx))]

theorem examCodes_small :
    ∀ code ∈ examCodes, ∀ b ∈ code, ¬ (65 ≤ b.toNat ∧ b.toNat ≤ 90) := by
  decide

theorem boardCodes_small :
    ∀ code ∈ boardCodes, ∀ b ∈ code, ¬ (65 ≤ b.toNat ∧ b.toNat ≤ 90) := by
  decide

theorem mapIndex_cons (a : GoString) (b : Bool) (m : List (GoString × Bool)) (k : GoString) :
    mapIndex ((a, b) :: m) k = if k = a then b else mapIndex m k := by
  unfold mapIndex
  rw [List.lookup_cons]
  by_cases h : k = a
  · have : (k == a) = true := by simp [h]
    simp [this, h]
  · have : (k == a) = false := by simp [h]
    simp [this, h]

theorem mapIndex_nil (k : GoString) : mapIndex [] k = false := rfl

theorem mapIndex_validExams (k : GoString) : mapIndex validExams k = true ↔ k ∈ examCodes := by
  unfold validExams examCodes
  simp only [mapIndex_cons, mapIndex_nil, List.mem_cons, List.mem_singleton,
    List.not_mem_nil, or_false]
  split_ifs <;> simp_all

theorem mapIndex_all_true (codes : List GoString) (k : GoString) :
    mapIndex (codes.map fun code => (code, true)) k = true ↔ k ∈ codes := by
  induction codes with
  | nil => simp [mapIndex_nil]
  | cons code rest ih =>
    rw [List.map_cons, mapIndex_cons, List.mem_cons]
    by_cases h : k = code
    · simp [h]
    · rw [if_neg h, ih]
      simp [h]

theorem mapIndex_validBoards (k : GoString) : mapIndex validBoards k = true ↔ k ∈ boardCodes :=
  mapIndex_all_true boardCodes k

theorem exists_readsAs_iff (caseTable : Char → Char) (codes : List GoString) (s : GoString)
    (hc : ∀ code ∈ codes, ∀ b ∈ code, ¬ (65 ≤ b.toNat ∧ b.toNat ≤ 90)) :
    (∃ code ∈ codes, readsAs caseTable s code = true) ↔ ToLower caseTable s ∈ codes := by
  rw [ToLower_eq_map]
  constructor
  · rintro ⟨code, hm, hr⟩
    rw [readsAs_iff caseTable s code (hc code hm)] at hr
    rw [hr]
    exact hm
  · intro h
    exact ⟨_, h, (readsAs_iff caseTable s _ (hc _ h)).2 rfl⟩

/-- What `validateExam` does with every string: `nil` exactly when the string
reads as one of the exam codes, the invalid-exam error quoting it otherwise. -/
theorem validateExam_spec (caseTable : Char → Char) (s : GoString) :
    (validateExam caseTable s = Outcome.ret none ↔
      ∃ code ∈ examCodes, readsAs caseTable s code = true) ∧
    ((¬ ∃ code ∈ examCodes, readsAs caseTable s code = true) →
      validateExam caseTable s =
        Outcome.ret (some (colorRed ++ "invalid exam value: ".toList ++ s ++ colorReset))) := by
  rw [exists_readsAs_iff caseTable examCodes s examCodes_small, ← mapIndex_validExams]
  unfold validateExam
  cases mapIndex validExams (ToLower caseTable s) <;> simp

/-- What `validateBoard` does with every string: `nil` exactly when the string
reads as one of the board codes, the invalid-board error quoting it otherwise. -/
theorem validateBoard_spec (caseTable : Char → Char) (s : GoString) :
    (validateBoard caseTable s = Outcome.ret none ↔
      ∃ code ∈ boardCodes, readsAs caseTable s code = true) ∧
    ((¬ ∃ code ∈ boardCodes, readsAs caseTable s code = true) →
      validateBoard caseTable s =
        Outcome.ret (some (colorRed ++ "invalid board value: ".toList ++ s ++ colorReset))) := by
  rw [exists_readsAs_iff caseTable boardCodes s boardCodes_small, ← mapIndex_validBoards]
  unfold validateBoard
  cases mapIndex validBoards (ToLower caseTable s) <;> simp

theorem inIntRange_of_Atoi (s : GoString) (y : Int) (h : Atoi s = (y, none)) :
    inIntRange y ∧ parseDecimal s = some y := by
  obtain ⟨v, hv, hr⟩ := (Atoi_ok_iff s).1 (by rw [h])
  have := Atoi_of_parseDecimal s v hv hr
  rw [h] at this
  have e : y = v := congrArg Prod.fst this
  subst e
  exact ⟨hr, hv⟩

/-- C4: for every year string that `Atoi` parses as the integer `y`,
`validateYear` returns `nil` if and only if `1996 ≤ y ≤ 2025`, and the
out-of-range error naming `y` otherwise; it accepts `1996` and `2025` and
returns the out-of-range error for `1995` and `2026`. -/
theorem validateYear_range (year : GoString) (y : Int) (h : Atoi year = (y, none)) :
    (validateYear year = Outcome.ret none ↔ 1996 ≤ y ∧ y ≤ 2025) ∧
    (¬ (1996 ≤ y ∧ y ≤ 2025) →
      validateYear year = Outcome.ret (some (colorRed ++ "year ".toList ++ decimal y
        ++ " is out of range (1996-2025)".toList ++ colorReset))) ∧
    validateYear "1996".toList = Outcome.ret none ∧
    validateYear "2025".toList = Outcome.ret none ∧
    validateYear "1995".toList = Outcome.ret (some (colorRed
      ++ "year 1995 is out of range (1996-2025)".toList ++ colorReset)) ∧
    validateYear "2026".toList = Outcome.ret (some (colorRed
      ++ "year 2026 is out of range (1996-2025)".toList ++ colorReset)) := by
  have hi := Itoa_of_inIntRange y (inIntRange_of_Atoi year y h).1
  refine ⟨?_, ?_, by decide, by decide, by decide, by decide⟩
  · simp only [validateYear, h, ne_eq, not_true_eq_false, if_false]
    by_cases hy : y < 1996 ∨ y > 2025
    · rw [if_pos hy]
      constructor
      · intro hc
        simp at hc
      · intro hc
        omega
    · rw [if_neg hy]
      constructor
      · intro _
        omega
      · intro _
        rfl
  · intro hy
    simp only [validateYear, h, ne_eq, not_true_eq_false, if_false, hi]
    rw [if_pos (by omega)]

/-- C4, witness: the year `2020`. -/
theorem validateYear_range_witness :
    validateYear "2020".toList = Outcome.ret none ↔ (1996 : Int) ≤ 2020 ∧ (2020 : Int) ≤ 2025 :=
  (validateYear_range "2020".toList 2020 (by decide)).1

/-- C5 (as amended): `validateRoll` and `validateReg` return `nil` exactly for
the strings made of an optional sign and decimal digits whose value lies in the
range of `int`; so they accept every non-empty string of decimal digits of
value at most `2^63 - 1` (every one of at most 18 digits), and reject with the
roll or reg error every string that does not denote an integer. -/
theorem validateRoll_validateReg (s : GoString) :
    (validateRoll s = Outcome.ret none ↔ ∃ v, parseDecimal s = some v ∧ inIntRange v) ∧
    (validateReg s = Outcome.ret none ↔ ∃ v, parseDecimal s = some v ∧ inIntRange v) ∧
    (isDigits s = true → decVal s 0 < 2 ^ 63 →
      validateRoll s = Outcome.ret none ∧ validateReg s = Outcome.ret none) ∧
    (isDigits s = true → s.length ≤ 18 →
      validateRoll s = Outcome.ret none ∧ validateReg s = Outcome.ret none) ∧
    (parseDecimal s = none →
      validateRoll s = Outcome.ret (some (colorRed ++ "roll must be numeric: ".toList ++ s
        ++ colorReset)) ∧
      validateReg s = Outcome.ret (some (colorRed ++ "reg must be numeric: ".toList ++ s
        ++ colorReset))) := by
  have hroll : validateRoll s = Outcome.ret none ↔ (Atoi s).2 = none := by
    unfold validateRoll
    by_cases h : (Atoi s).2 = none <;> simp [h]
  have hreg : validateReg s = Outcome.ret none ↔ (Atoi s).2 = none := by
    unfold validateReg
    by_cases h : (Atoi s).2 = none <;> simp [h]
  have hdig : isDigits s = true → decVal s 0 < 2 ^ 63 → (Atoi s).2 = none := by
    intro hd hv
    rw [Atoi_ok_iff]
    refine ⟨_, parseDecimal_of_isDigits s hd, ?_⟩
    unfold inIntRange
    omega
  refine ⟨hroll.trans (Atoi_ok_iff s), hreg.trans (Atoi_ok_iff s), ?_, ?_, ?_⟩
  · intro hd hv
    exact ⟨hroll.2 (hdig hd hv), hreg.2 (hdig hd hv)⟩
  · intro hd hl
    have hv := decVal_lt_of_short s hd (by omega)
    have hv2 : decVal s 0 < 2 ^ 63 := by omega
    exact ⟨hroll.2 (hdig hd hv2), hreg.2 (hdig hd hv2)⟩
  · intro hn
    have herr : (Atoi s).2 ≠ none := by
      intro h
      obtain ⟨v, hv, _⟩ := (Atoi_ok_iff s).1 h
      rw [hn] at hv
      cases hv
    simp only [validateRoll, validateReg, herr, ne_eq, not_false_eq_true, if_true, and_self]

/-- C5, counterexample: the string `9223372036854775808` of nineteen decimal
digits is rejected by `validateRoll` and by `validateReg`; so is the empty
string. -/
theorem validateRoll_rejects_long_digits :
    validateRoll [] = Outcome.ret (some (colorRed ++ "roll must be numeric: ".toList
      ++ colorReset)) ∧
    isDigits "9223372036854775808".toList = true ∧
    validateRoll "9223372036854775808".toList = Outcome.ret (some (colorRed
      ++ "roll must be numeric: 9223372036854775808".toList ++ colorReset)) ∧
    validateReg "9223372036854775808".toList = Outcome.ret (some (colorRed
      ++ "reg must be numeric: 9223372036854775808".toList ++ colorReset)) := by
  decide

theorem andThen_eq (check : Outcome) (rest : Unit → Outcome) :
    check.andThen rest = if check = Outcome.ret none then rest () else check := by
  cases check with
  | fatal msg => simp [Outcome.andThen]
  | ret err => cases err <;> simp [Outcome.andThen]

theorem validateFormInputs_eq (caseTable : Char → Char) (exam year board roll reg : GoString) :
    validateFormInputs caseTable exam year board roll reg =
      firstFailure [validateExam caseTable exam, validateYear year,
        validateBoard caseTable board, validateRoll roll, validateReg reg] := by
  simp only [validateFormInputs, andThen_eq, firstFailure]

theorem validateExam_ret (caseTable : Char → Char) (s : GoString) :
    ∃ err, validateExam caseTable s = Outcome.ret err := by
  unfold validateExam
  split_ifs <;> exact ⟨_, rfl⟩

theorem validateBoard_ret (caseTable : Char → Char) (s : GoString) :
    ∃ err, validateBoard caseTable s = Outcome.ret err := by
  unfold validateBoard
  split_ifs <;> exact ⟨_, rfl⟩

theorem validateRoll_ret (s : GoString) : ∃ err, validateRoll s = Outcome.ret err := by
  unfold validateRoll
  split_ifs <;> exact ⟨_, rfl⟩

theorem validateReg_ret (s : GoString) : ∃ err, validateReg s = Outcome.ret err := by
  unfold validateReg
  split_ifs <;> exact ⟨_, rfl⟩

theorem validateYear_ret (year : GoString) (h : (Atoi year).2 = none) :
    ∃ err, validateYear year = Outcome.ret err := by
  simp only [validateYear, h, ne_eq, not_true_eq_false, if_false]
  split_ifs <;> exact ⟨_, rfl⟩

/-- C6 (as amended): `validateFormInputs` runs the checks in the order exam,
year, board, roll, reg and ends as the first check that does not succeed ends,
whatever the later fields are: with the returned error of that check, or, when
that check is a year that `Atoi` refuses, with the fatal exit of `validateYear`;
it returns `nil` if and only if all five checks return `nil`. -/
theorem validateFormInputs_first_failure (caseTable : Char → Char)
    (exam year board roll reg : GoString) :
    validateFormInputs caseTable exam year board roll reg =
      firstFailure [validateExam caseTable exam, validateYear year,
        validateBoard caseTable board, validateRoll roll, validateReg reg] ∧
    (validateFormInputs caseTable exam year board roll reg = Outcome.ret none ↔
      validateExam caseTable exam = Outcome.ret none ∧ validateYear year = Outcome.ret none ∧
      validateBoard caseTable board = Outcome.ret none ∧ validateRoll roll = Outcome.ret none ∧
      validateReg reg = Outcome.ret none) ∧
    (validateExam caseTable exam ≠ Outcome.ret none →
      ∀ year1 board1 roll1 reg1, validateFormInputs caseTable exam year1 board1 roll1 reg1 =
        validateExam caseTable exam) ∧
    (validateExam caseTable exam = Outcome.ret none → validateYear year ≠ Outcome.ret none →
      ∀ board1 roll1 reg1, validateFormInputs caseTable exam year board1 roll1 reg1 =
        validateYear year) ∧
    (validateExam caseTable exam = Outcome.ret none → validateYear year = Outcome.ret none →
      validateBoard caseTable board ≠ Outcome.ret none →
      ∀ roll1 reg1, validateFormInputs caseTable exam year board roll1 reg1 =
        validateBoard caseTable board) ∧
    (validateExam caseTable exam = Outcome.ret none → validateYear year = Outcome.ret none →
      validateBoard caseTable board = Outcome.ret none → validateRoll roll ≠ Outcome.ret none →
      ∀ reg1, validateFormInputs caseTable exam year board roll reg1 = validateRoll roll) ∧
    (validateExam caseTable exam = Outcome.ret none → validateYear year = Outcome.ret none →
      validateBoard caseTable board = Outcome.ret none → validateRoll roll = Outcome.ret none →
      validateFormInputs caseTable exam year board roll reg = validateReg reg) ∧
    ((Atoi year).2 = none →
      ∃ err, validateFormInputs caseTable exam year board roll reg = Outcome.ret err) := by
  refine ⟨validateFormInputs_eq _ _ _ _ _ _, ?_, ?_, ?_, ?_, ?_, ?_, ?_⟩
  · simp only [validateFormInputs_eq, firstFailure]
    split_ifs <;> simp_all
  · intro h1 year1 board1 roll1 reg1
    simp only [validateFormInputs_eq, firstFailure, if_neg h1]
  · intro h1 h2 board1 roll1 reg1
    simp only [validateFormInputs_eq, firstFailure, if_pos h1, if_neg h2]
  · intro h1 h2 h3 roll1 reg1
    simp only [validateFormInputs_eq, firstFailure, if_pos h1, if_pos h2, if_neg h3]
  · intro h1 h2 h3 h4 reg1
    simp only [validateFormInputs_eq, firstFailure, if_pos h1, if_pos h2, if_pos h3, if_neg h4]
  · intro h1 h2 h3 h4
    simp only [validateFormInputs_eq, firstFailure, if_pos h1, if_pos h2, if_pos h3, if_pos h4]
    split_ifs with h5
    · exact h5.symm
    · rfl
  · intro hy
    obtain ⟨e1, h1⟩ := validateExam_ret caseTable exam
    obtain ⟨e2, h2⟩ := validateYear_ret year hy
    obtain ⟨e3, h3⟩ := validateBoard_ret caseTable board
    obtain ⟨e4, h4⟩ := validateRoll_ret roll
    obtain ⟨e5, h5⟩ := validateReg_ret reg
    simp only [validateFormInputs, h1, h2, h3, h4, h5]
    cases e1 <;> cases e2 <;> cases e3 <;> cases e4 <;> cases e5 <;>
      exact ⟨_, rfl⟩

/-- C6, counterexample: with the valid exam `ssc` and the year `abc` the first
check that fails is the year, and `validateFormInputs` returns no error to its
caller: the process exits inside `validateYear`. -/
theorem validateFormInputs_no_error_surfaced :
    validateExam id "ssc".toList = Outcome.ret none ∧
    validateYear "abc".toList ≠ Outcome.ret none ∧
    validateFormInputs id "ssc".toList "abc".toList "dhaka".toList "123456".toList
        "7891011".toList
      = Outcome.fatal (colorRed ++ "year must be numeric: abc".toList ++ colorReset
          ++ "\n".toList) ∧
    ¬ ∃ err, validateFormInputs id "ssc".toList "abc".toList "dhaka".toList "123456".toList
        "7891011".toList = Outcome.ret err := by
  refine ⟨by decide, by decide, by decide, ?_⟩
  rintro ⟨err, h⟩
  revert h
  have e : validateFormInputs id "ssc".toList "abc".toList "dhaka".toList "123456".toList
        "7891011".toList
      = Outcome.fatal (colorRed ++ "year must be numeric: abc".toList ++ colorReset
          ++ "\n".toList) := by decide
  rw [e]
  intro h
  cases h

/-- What `validateRoll` and `validateReg` do with a string that does not denote
an integer of the range of `int`: they return their error, quoting the string. -/
theorem validateRoll_validateReg_invalid (s : GoString)
    (h : ¬ ∃ v, parseDecimal s = some v ∧ inIntRange v) :
    validateRoll s =
      Outcome.ret (some (colorRed ++ "roll must be numeric: ".toList ++ s ++ colorReset)) ∧
    validateReg s =
      Outcome.ret (some (colorRed ++ "reg must be numeric: ".toList ++ s ++ colorReset)) := by
  have herr : (Atoi s).2 ≠ none := fun hc => h ((Atoi_ok_iff s).1 hc)
  simp only [validateRoll, validateReg, herr, ne_eq, not_false_eq_true, if_true, and_self]

theorem not_readsAs_of_ascii (caseTable : Char → Char) (codes : List GoString) (s : GoString)
    (hs : ∀ c ∈ s, c.toNat ≤ 127)
    (h : ¬ ∃ code ∈ codes, equalIgnoringCase s code = true) :
    ¬ ∃ code ∈ codes, readsAs caseTable s code = true := by
  rintro ⟨code, hm, hr⟩
  exact h ⟨code, hm, by rw [← readsAs_ascii caseTable s code hs]; exact hr⟩

/-- C9 (as amended): a year that `Atoi` refuses makes `validateYear` exit the
process (`log.Fatalf`) instead of returning; `validateExam`, `validateBoard`,
`validateRoll` and `validateReg` always return, never exit; a roll or reg that
does not denote an integer of the range of `int` yields the returned error, and
so does an exam or board of ASCII characters that equals none of the codes
ignoring letter case (in general: one that reads as none of the codes, a rune
outside ASCII counting as its lower-case form in the Unicode case table); and
`validateFormInputs` with a valid exam and such a year ends in the fatal exit,
for every board, roll and reg. -/
theorem validateYear_fatal (caseTable : Char → Char) (year : GoString)
    (h : (Atoi year).2 ≠ none) :
    validateYear year = Outcome.fatal (colorRed ++ "year must be numeric: ".toList ++ year
      ++ colorReset ++ "\n".toList) ∧
    (∀ s, ∃ err, validateExam caseTable s = Outcome.ret err) ∧
    (∀ s, ∃ err, validateBoard caseTable s = Outcome.ret err) ∧
    (∀ s, ∃ err, validateRoll s = Outcome.ret err) ∧
    (∀ s, ∃ err, validateReg s = Outcome.ret err) ∧
    (∀ exam board roll reg, validateExam caseTable exam = Outcome.ret none →
      validateFormInputs caseTable exam year board roll reg =
        Outcome.fatal (colorRed ++ "year must be numeric: ".toList ++ year ++ colorReset
          ++ "\n".toList) ∧
      ¬ ∃ err, validateFormInputs caseTable exam year board roll reg = Outcome.ret err) ∧
    (∀ s, (¬ ∃ code ∈ examCodes, readsAs caseTable s code = true) →
      validateExam caseTable s =
        Outcome.ret (some (colorRed ++ "invalid exam value: ".toList ++ s ++ colorReset))) ∧
    (∀ s, (∀ c ∈ s, c.toNat ≤ 127) → (¬ ∃ code ∈ examCodes, equalIgnoringCase s code = true) →
      validateExam caseTable s =
        Outcome.ret (some (colorRed ++ "invalid exam value: ".toList ++ s ++ colorReset))) ∧
    (∀ s, (¬ ∃ code ∈ boardCodes, readsAs caseTable s code = true) →
      validateBoard caseTable s =
        Outcome.ret (some (colorRed ++ "invalid board value: ".toList ++ s ++ colorReset))) ∧
    (∀ s, (∀ c ∈ s, c.toNat ≤ 127) → (¬ ∃ code ∈ boardCodes, equalIgnoringCase s code = true) →
      validateBoard caseTable s =
        Outcome.ret (some (colorRed ++ "invalid board value: ".toList ++ s ++ colorReset))) ∧
    (∀ s, (¬ ∃ v, parseDecimal s = some v ∧ inIntRange v) →
      validateRoll s =
        Outcome.ret (some (colorRed ++ "roll must be numeric: ".toList ++ s ++ colorReset))) ∧
    (∀ s, (¬ ∃ v, parseDecimal s = some v ∧ inIntRange v) →
      validateReg s =
        Outcome.ret (some (colorRed ++ "reg must be numeric: ".toList ++ s ++ colorReset))) ∧
    validateExam caseTable "xyz".toList =
      Outcome.ret (some (colorRed ++ "invalid exam value: xyz".toList ++ colorReset)) ∧
    validateBoard caseTable "london".toList =
      Outcome.ret (some (colorRed ++ "invalid board value: london".toList ++ colorReset)) ∧
    validateBoard caseTable [] =
      Outcome.ret (some (colorRed ++ "invalid board value: ".toList ++ colorReset)) ∧
    validateRoll "12a".toList =
      Outcome.ret (some (colorRed ++ "roll must be numeric: 12a".toList ++ colorReset)) ∧
    validateReg [] =
      Outcome.ret (some (colorRed ++ "reg must be numeric: ".toList ++ colorReset)) := by
  have hy : validateYear year = Outcome.fatal (colorRed ++ "year must be numeric: ".toList
      ++ year ++ colorReset ++ "\n".toList) := by
    simp only [validateYear, h, ne_eq, not_false_eq_true, if_true]
  refine ⟨hy, validateExam_ret caseTable, validateBoard_ret caseTable, validateRoll_ret,
    validateReg_ret, ?_, fun s => (validateExam_spec caseTable s).2, ?_,
    fun s => (validateBoard_spec caseTable s).2, ?_,
    fun s hs => (validateRoll_validateReg_invalid s hs).1,
    fun s hs => (validateRoll_validateReg_invalid s hs).2, rfl, rfl, rfl, rfl, rfl⟩
  · intro exam board roll reg he
    have e : validateFormInputs caseTable exam year board roll reg =
        Outcome.fatal (colorRed ++ "year must be numeric: ".toList ++ year ++ colorReset
          ++ "\n".toList) := by
      simp only [validateFormInputs, he, hy, Outcome.andThen]
    refine ⟨e, ?_⟩
    rintro ⟨err, h2⟩
    rw [e] at h2
    cases h2
  · intro s hs hn
    exact (validateExam_spec caseTable s).2 (not_readsAs_of_ascii caseTable _ s hs hn)
  · intro s hs hn
    exact (validateBoard_spec caseTable s).2 (not_readsAs_of_ascii caseTable _ s hs hn)

/-- C9, witness: the year `abc`. -/
theorem validateYear_fatal_witness :
    validateYear "abc".toList = Outcome.fatal (colorRed ++ "year must be numeric: ".toList
      ++ "abc".toList ++ colorReset ++ "\n".toList) :=
  (validateYear_fatal id "abc".toList (by decide)).1

/-- C9, counterexample: the exam value `hsc_d`, U+0130, `c` is none of the seven
codes ignoring letter case, and `validateExam` returns `nil` for it, not an
error. -/
theorem validateExam_no_error_dotted_I :
    (¬ ∃ code ∈ examCodes,
      equalIgnoringCase ("hsc_d".toList ++ [Char.ofNat 304] ++ "c".toList) code = true) ∧
    (¬ ∃ err, validateExam dottedCapitalI ("hsc_d".toList ++ [Char.ofNat 304] ++ "c".toList)
      = Outcome.ret (some err)) := by
  refine ⟨by decide, ?_⟩
  rintro ⟨err, h⟩
  have e : validateExam dottedCapitalI ("hsc_d".toList ++ [Char.ofNat 304] ++ "c".toList)
      = Outcome.ret none := by decide
  rw [e] at h
  cases h

/-! ## The program: theorems -/

/-- C10: with the request fields of the program (all empty) `validateFormInputs`
returns the invalid-exam error; so `main` never starts the browser sequence,
whatever the configuration fetch gives, and when the loader returns `nil` it
exits at the validation with that error. -/
theorem main_stops_at_validation (caseTable : Char → Char) (f : Fetched) :
    validateFormInputs caseTable exam year board roll reg =
      Outcome.ret (some (colorRed ++ "invalid exam value: ".toList ++ colorReset)) ∧
    (∀ st, main caseTable f ≠ MainOutcome.browser st) ∧
    (∀ st, fetchConfig initialSettings f = some (st, none) →
      main caseTable f = MainOutcome.fatal (colorRed ++ "Validation failed: ".toList
        ++ (colorRed ++ "invalid exam value: ".toList ++ colorReset) ++ colorReset)) := by
  have hv : validateFormInputs caseTable exam year board roll reg =
      Outcome.ret (some (colorRed ++ "invalid exam value: ".toList ++ colorReset)) := rfl
  refine ⟨hv, ?_, ?_⟩
  · intro st
    unfold main
    rw [hv]
    rcases fetchConfig initialSettings f with _ | ⟨st1, _ | err⟩ <;> simp
  · intro st hf
    unfold main
    rw [hv, hf]

/-! ## The captcha-locating step: theorems -/

/-- C8: when the query gives fewer than 13 cells the step returns the
insufficient-cells error carrying the count and reads no text; when it gives at
least 13 the step reads the text at the XPath of the cell of index 12, which
exists, and does not panic. -/
theorem locateCaptcha_cells {Node : Type} (FullXPath : Node → GoString)
    (Text : GoString → Except GoString GoString) (nodes : List Node) (captchaValue : GoString) :
    (nodes.length < 13 →
      locateCaptcha FullXPath Text (Except.ok nodes) captchaValue =
        StepOutcome.returned
          (some ("insufficient matching cells found: ".toList ++ decimal (nodes.length : Int)))
          captchaValue []) ∧
    (nodes.length = 10 →
      locateCaptcha FullXPath Text (Except.ok nodes) captchaValue =
        StepOutcome.returned (some "insufficient matching cells found: 10".toList)
          captchaValue []) ∧
    (∀ h : 13 ≤ nodes.length,
      locateCaptcha FullXPath Text (Except.ok nodes) captchaValue ≠ StepOutcome.panicked ∧
      locateCaptcha FullXPath Text (Except.ok nodes) captchaValue =
        match Text (FullXPath (nodes.get ⟨12, h⟩)) with
        | Except.error err =>
          StepOutcome.returned (some err) captchaValue [FullXPath (nodes.get ⟨12, h⟩)]
        | Except.ok text =>
          StepOutcome.returned none text [FullXPath (nodes.get ⟨12, h⟩)]) := by
  refine ⟨?_, ?_, ?_⟩
  · intro h
    have e : Itoa (nodes.length : Int) = decimal (nodes.length : Int) :=
      Itoa_eq_decimal _ (by omega) (by omega)
    simp only [locateCaptcha, if_pos h, e]
  · intro h
    have h2 : nodes.length < 13 := by omega
    simp only [locateCaptcha, if_pos h2, h]
    rfl
  · intro h
    have h2 : ¬ nodes.length < 13 := by omega
    have h3 : nodes[12]? = some (nodes.get ⟨12, h⟩) := List.getElem?_eq_getElem h
    have e : locateCaptcha FullXPath Text (Except.ok nodes) captchaValue =
        match Text (FullXPath (nodes.get ⟨12, h⟩)) with
        | Except.error err =>
          StepOutcome.returned (some err) captchaValue [FullXPath (nodes.get ⟨12, h⟩)]
        | Except.ok text =>
          StepOutcome.returned none text [FullXPath (nodes.get ⟨12, h⟩)] := by
      simp only [locateCaptcha, if_neg h2, h3]
    refine ⟨?_, e⟩
    rw [e]
    cases Text (FullXPath (nodes.get ⟨12, h⟩)) <;> simp

/-! ## The configuration loader: theorems -/

theorem getLastD_append (a b : List GoString) (d : GoString) :
    (a ++ b).getLast?.getD d = b.getLast?.getD (a.getLast?.getD d) := by
  rw [List.getLast?_append]
  cases b.getLast? <;> simp

theorem setScraperKey_ok (st : Settings) (k : GoString) (v : JSONValue)
    (h : k ∈ scraperKeys → (assertBool v).isSome = true) :
    ∃ st1, setScraperKey st k v = some st1 ∧ st1.statusAPI = st.statusAPI := by
  unfold setScraperKey
  split_ifs with h1 h2 h3
  · obtain ⟨b, hb⟩ := Option.isSome_iff_exists.1 (h (by simp [scraperKeys, h1]))
    rw [hb]
    exact ⟨_, rfl, rfl⟩
  · obtain ⟨b, hb⟩ := Option.isSome_iff_exists.1 (h (by simp [scraperKeys, h2]))
    rw [hb]
    exact ⟨_, rfl, rfl⟩
  · obtain ⟨b, hb⟩ := Option.isSome_iff_exists.1 (h (by simp [scraperKeys, h3]))
    rw [hb]
    exact ⟨_, rfl, rfl⟩
  · exact ⟨_, rfl, rfl⟩

theorem setBoardKey_ok (st : Settings) (k : GoString) (v : JSONValue)
    (h : k ∈ boardKeys → (assertString v).isSome = true) :
    ∃ st1, setBoardKey st k v = some st1 ∧
      st1.statusAPI = (statusValues [(k, v)]).getLast?.getD st.statusAPI := by
  unfold setBoardKey
  split_ifs with h1 h2 h3 h4 h5 h6
  · obtain ⟨b, hb⟩ := Option.isSome_iff_exists.1 (h (by simp [boardKeys, h1]))
    rw [hb]
    refine ⟨_, rfl, ?_⟩
    subst h1
    rfl
  · obtain ⟨b, hb⟩ := Option.isSome_iff_exists.1 (h (by simp [boardKeys, h2]))
    rw [hb]
    refine ⟨_, rfl, ?_⟩
    subst h2
    rfl
  · obtain ⟨b, hb⟩ := Option.isSome_iff_exists.1 (h (by simp [boardKeys, h3]))
    rw [hb]
    refine ⟨_, rfl, ?_⟩
    subst h3
    rfl
  · obtain ⟨b, hb⟩ := Option.isSome_iff_exists.1 (h (by simp [boardKeys, h4]))
    rw [hb]
    refine ⟨_, rfl, ?_⟩
    subst h4
    rfl
  · obtain ⟨b, hb⟩ := Option.isSome_iff_exists.1 (h (by simp [boardKeys, h5]))
    rw [hb]
    refine ⟨_, rfl, ?_⟩
    subst h5
    rfl
  · obtain ⟨b, hb⟩ := Option.isSome_iff_exists.1 (h (by simp [boardKeys, h6]))
    rw [hb]
    refine ⟨_, rfl, ?_⟩
    have e : statusValues [(k, v)] = [b] := by
      simp only [statusValues, List.filterMap_cons, List.filterMap_nil, if_pos h6, hb]
    rw [e]
    rfl
  · refine ⟨_, rfl, ?_⟩
    have e : statusValues [(k, v)] = [] := by
      simp only [statusValues, List.filterMap_cons, List.filterMap_nil, if_neg h6]
    rw [e]
    rfl

theorem rangeMap_scraper (config : List (GoString × JSONValue)) (st : Settings)
    (h : ∀ kv ∈ config, kv.1 ∈ scraperKeys → (assertBool kv.2).isSome = true) :
    ∃ st1, rangeMap setScraperKey config st = some st1 ∧ st1.statusAPI = st.statusAPI := by
  induction config generalizing st with
  | nil => exact ⟨st, rfl, rfl⟩
  | cons kv rest ih =>
    obtain ⟨k, v⟩ := kv
    obtain ⟨st1, h1, h2⟩ := setScraperKey_ok st k v (h (k, v) (List.mem_cons_self _ _))
    obtain ⟨st2, h3, h4⟩ := ih st1 (fun x hx => h x (List.mem_cons_of_mem _ hx))
    refine ⟨st2, ?_, by rw [h4, h2]⟩
    simp only [rangeMap, h1, h3]

theorem rangeArray_scraper (configs : List (List (GoString × JSONValue))) (st : Settings)
    (h : ∀ config ∈ configs, ∀ kv ∈ config,
      kv.1 ∈ scraperKeys → (assertBool kv.2).isSome = true) :
    ∃ st1, rangeArray setScraperKey configs st = some st1 ∧ st1.statusAPI = st.statusAPI := by
  induction configs generalizing st with
  | nil => exact ⟨st, rfl, rfl⟩
  | cons config rest ih =>
    obtain ⟨st1, h1, h2⟩ := rangeMap_scraper config st (h config (List.mem_cons_self _ _))
    obtain ⟨st2, h3, h4⟩ := ih st1 (fun x hx => h x (List.mem_cons_of_mem _ hx))
    refine ⟨st2, ?_, by rw [h4, h2]⟩
    simp only [rangeArray, h1, h3]

theorem statusValues_cons (kv : GoString × JSONValue) (rest : List (GoString × JSONValue)) :
    statusValues (kv :: rest) = statusValues [kv] ++ statusValues rest := by
  unfold statusValues
  rw [← List.filterMap_append]
  rfl

theorem rangeMap_board (config : List (GoString × JSONValue)) (st : Settings)
    (h : ∀ kv ∈ config, kv.1 ∈ boardKeys → (assertString kv.2).isSome = true) :
    ∃ st1, rangeMap setBoardKey config st = some st1 ∧
      st1.statusAPI = (statusValues config).getLast?.getD st.statusAPI := by
  induction config generalizing st with
  | nil => exact ⟨st, rfl, rfl⟩
  | cons kv rest ih =>
    obtain ⟨k, v⟩ := kv
    obtain ⟨st1, h1, h2⟩ := setBoardKey_ok st k v (h (k, v) (List.mem_cons_self _ _))
    obtain ⟨st2, h3, h4⟩ := ih st1 (fun x hx => h x (List.mem_cons_of_mem _ hx))
    refine ⟨st2, ?_, ?_⟩
    · simp only [rangeMap, h1, h3]
    · rw [h4, h2, statusValues_cons (k, v) rest, getLastD_append]

theorem rangeArray_board (configs : List (List (GoString × JSONValue))) (st : Settings)
    (h : ∀ config ∈ configs, ∀ kv ∈ config,
      kv.1 ∈ boardKeys → (assertString kv.2).isSome = true) :
    ∃ st1, rangeArray setBoardKey configs st = some st1 ∧
      st1.statusAPI = ((configs.map statusValues).flatten).getLast?.getD st.statusAPI := by
  induction configs generalizing st with
  | nil => exact ⟨st, rfl, rfl⟩
  | cons config rest ih =>
    obtain ⟨st1, h1, h2⟩ := rangeMap_board config st (h config (List.mem_cons_self _ _))
    obtain ⟨st2, h3, h4⟩ := ih st1 (fun x hx => h x (List.mem_cons_of_mem _ hx))
    refine ⟨st2, ?_, ?_⟩
    · simp only [rangeArray, h1, h3]
    · rw [h4, h2, List.map_cons, List.flatten_cons, getLastD_append]

/-- C7: for every well-typed decoded response the loader returns, with
`statusAPI` holding the last string supplied for `status_api` (its previous
value when none is supplied); it returns `nil` only when that value is exactly
`enabled`, and otherwise the service-unavailable error carrying that value, in
particular when no entry supplies `status_api` and the variable is still empty. -/
theorem fetchConfig_status (st0 : Settings) (resp : APIResponse) (h : wellTyped resp = true) :
    ∃ st err, fetchConfig st0 (Fetched.parsed resp) = some (st, err) ∧
      st.statusAPI = (suppliedStatus resp).getLast?.getD st0.statusAPI ∧
      (err = none ↔ st.statusAPI = "enabled".toList) ∧
      (st.statusAPI ≠ "enabled".toList → err = some (serviceUnavailable st.statusAPI)) ∧
      (suppliedStatus resp = [] → st0.statusAPI = [] →
        err = some (serviceUnavailable [])) := by
  simp only [wellTyped, Bool.and_eq_true, List.all_eq_true, decide_eq_true_eq] at h
  obtain ⟨st1, h1, h2⟩ := rangeArray_scraper resp.ScrapperConfig st0 h.1
  obtain ⟨st2, h3, h4⟩ := rangeArray_board resp.EducationBoardResults st1 h.2
  have hst : st2.statusAPI = (suppliedStatus resp).getLast?.getD st0.statusAPI := by
    rw [h4, h2]
    rfl
  by_cases he : st2.statusAPI = "enabled".toList
  · refine ⟨st2, none, ?_, hst, ⟨fun _ => he, fun _ => rfl⟩, fun hne => absurd he hne, ?_⟩
    · simp only [fetchConfig, h1, h3, he, ne_eq, not_true_eq_false, if_false]
    · intro hs h0
      rw [hst, hs, h0] at he
      revert he
      decide
  · refine ⟨st2, some (serviceUnavailable st2.statusAPI), ?_, hst,
      ⟨fun hc => (by cases hc), fun hc => absurd hc he⟩, fun _ => rfl, ?_⟩
    · simp only [fetchConfig, h1, h3, ne_eq, he, not_false_eq_true, if_true, serviceUnavailable]
    · intro hs h0
      rw [hst, hs, h0]
      rfl

/-- C7, witness: a response whose only entry sets `status_api` to `Enabled`. -/
theorem fetchConfig_status_witness :
    ∃ st err, fetchConfig initialSettings (Fetched.parsed
        ⟨[], [[("status_api".toList, JSONValue.str "Enabled".toList)]]⟩) = some (st, err) ∧
      st.statusAPI = (suppliedStatus
        ⟨[], [[("status_api".toList, JSONValue.str "Enabled".toList)]]⟩).getLast?.getD
          initialSettings.statusAPI ∧
      (err = none ↔ st.statusAPI = "enabled".toList) ∧
      (st.statusAPI ≠ "enabled".toList → err = some (serviceUnavailable st.statusAPI)) ∧
      (suppliedStatus ⟨[], [[("status_api".toList, JSONValue.str "Enabled".toList)]]⟩ = [] →
        initialSettings.statusAPI = [] → err = some (serviceUnavailable [])) :=
  fetchConfig_status initialSettings
    ⟨[], [[("status_api".toList, JSONValue.str "Enabled".toList)]]⟩ (by decide)

end EduBoard
